import Mathlib

/-!
Shallow embedding of the event-log core of `timetracking` (src/src/main.rs,
src/src/settings.rs) and proofs about the frozen claims.

Modelling conventions:
* A `chrono::DateTime<Utc>` instant is an `Int`, seconds since the Unix epoch
  (the log stores whole seconds via `ts_seconds`).
* The local timezone is a fixed offset `tzOffset` (seconds east of UTC); the
  code only consults the local zone through `Local::today()`, `Local::now()`
  and local/UTC conversions, which the fixed-offset model covers.
* A calendar date (`NaiveDate`, `Date<Local>`) is an `Int` day number, days
  since 1970-01-01; 1970-01-01 was a Thursday (index 3 from Monday).
* `Utc::now()` / `Local::now()` are one instant `Env.now` (the process is
  short-lived; the code reads the clock several times but the model uses a
  single read, at whole-second precision).
* `Duration` is an `Int` number of seconds; `checked_add` on `chrono`
  durations only fails near i64 overflow, which unbounded `Int` never hits,
  so it is plain addition here.
-/

namespace Timetracking

/-- Payload shared by both event kinds (struct `TrackingData`). -/
structure TrackingData where
  description : Option String
  time : Int
deriving DecidableEq

/-- enum `TrackingEvent`. -/
inductive TrackingEvent where
  | Start : TrackingData → TrackingEvent
  | Stop : TrackingData → TrackingEvent
deriving DecidableEq

/-- The payload of either variant. -/
def TrackingEvent.payload : TrackingEvent → TrackingData
  | .Start d => d
  | .Stop d => d

/-- `time.with_second(0)`: zero the seconds-of-minute field of an instant. -/
def withSecondZero (t : Int) : Int := t - t.emod 60

/-- `TrackingEvent::time(include_seconds)`. -/
def TrackingEvent.time (e : TrackingEvent) (include_seconds : Bool) : Int :=
  if include_seconds then e.payload.time else withSecondZero e.payload.time

/-- `TrackingEvent::description()`. -/
def TrackingEvent.description (e : TrackingEvent) : Option String :=
  e.payload.description

/-- `TrackingEvent::is_start()`. -/
def TrackingEvent.is_start : TrackingEvent → Bool
  | .Start _ => true
  | .Stop _ => false

/-- `TrackingEvent::is_stop()`. -/
def TrackingEvent.is_stop : TrackingEvent → Bool
  | .Start _ => false
  | .Stop _ => true

/-- enum `DateOrDateTime`: `Date` holds a local calendar day number,
`DateTime` holds naive local seconds since epoch. -/
inductive DateOrDateTime where
  | Date : Int → DateOrDateTime
  | DateTime : Int → DateOrDateTime
deriving DecidableEq

/-- The ambient process environment: the current instant and the fixed
local-timezone offset. -/
structure Env where
  now : Int
  tzOffset : Int
deriving DecidableEq

/-- Naive local seconds corresponding to the current instant. -/
def Env.localNow (env : Env) : Int := env.now + env.tzOffset

/-- `Local::today()` as a day number. -/
def Env.localToday (env : Env) : Int := (env.localNow).fdiv 86400

/-- `Weekday::num_days_from_monday` of a day number (Mon = 0 .. Sun = 6). -/
def weekdayFromMonday (day : Int) : Int := (day + 3).emod 7

/-- struct `settings::Time`. -/
structure TimeGoalPart where
  hours : Nat
  minutes : Nat
deriving DecidableEq

/-- struct `settings::TimeGoal`. -/
structure TimeGoal where
  daily : TimeGoalPart
  weekly : TimeGoalPart
deriving DecidableEq

/-- struct `settings::Settings` (the fields the core reads).
`last_day_of_work_week` is Modelled from the spec: the field is used by
`main.rs` (`settings.last_day_of_work_week`) but absent from the
`settings.rs` snapshot under src/; the spec lists
`last_day_of_work_week: weekday` among the settings consumed. It is a
weekday index, days from Monday (0 = Mon .. 6 = Sun). -/
structure Settings where
  auto_insert_stop : Bool
  min_daily_break : Nat
  time_goal : TimeGoal
  last_day_of_work_week : Int
deriving DecidableEq

/-!
## Time-string parsing (model of the chrono format strings the code uses)

`chrono` numeric fields skip leading whitespace, then read one to `width`
digits; literal characters must match exactly; a whitespace item in the
format skips any whitespace; `parse_from_str` fails when input remains
after all items. Sign prefixes on years and leap seconds (second 60) are
not modelled; no claim exercises them.
-/

/-- Read up to `fuel` further digits, accumulating into `acc`. -/
def scanNumAux : Nat → Nat → List Char → Nat × List Char
  | 0, acc, cs => (acc, cs)
  | _ + 1, acc, [] => (acc, [])
  | fuel + 1, acc, c :: cs =>
    if c.isDigit then scanNumAux fuel (acc * 10 + (c.toNat - 48)) cs
    else (acc, c :: cs)

/-- A numeric field of maximal width `w`: skip whitespace, read 1..`w` digits. -/
def scanNum (w : Nat) (cs : List Char) : Option (Nat × List Char) :=
  match cs.dropWhile (fun c => c.isWhitespace) with
  | [] => none
  | c :: cs => if c.isDigit then some (scanNumAux (w - 1) (c.toNat - 48) cs) else none

/-- A literal character in the format string. -/
def expectChar (c : Char) : List Char → Option (List Char)
  | [] => none
  | x :: xs => if x = c then some xs else none

/-- `"%H:%M:%S"`: result is seconds of day. -/
def parseHMS (cs : List Char) : Option (Nat × List Char) :=
  match scanNum 2 cs with
  | none => none
  | some (h, cs) =>
    match expectChar ':' cs with
    | none => none
    | some cs =>
      match scanNum 2 cs with
      | none => none
      | some (m, cs) =>
        match expectChar ':' cs with
        | none => none
        | some cs =>
          match scanNum 2 cs with
          | none => none
          | some (s, cs) =>
            if h < 24 ∧ m < 60 ∧ s < 60 then some (h * 3600 + m * 60 + s, cs)
            else none

/-- Leap year test of the proleptic Gregorian calendar. -/
def isLeapYear (y : Int) : Bool := y.emod 4 = 0 ∧ (y.emod 100 ≠ 0 ∨ y.emod 400 = 0)

/-- Days in a month (1..12) of year `y`. -/
def daysInMonth (y : Int) (m : Nat) : Nat :=
  if m = 2 then (if isLeapYear y then 29 else 28)
  else if m = 4 ∨ m = 6 ∨ m = 9 ∨ m = 11 then 30
  else 31

/-- Day number (days since 1970-01-01) of a civil date, the standard
era-based conversion. -/
def daysFromCivil (y : Int) (m d : Nat) : Int :=
  let y' : Int := if m ≤ 2 then y - 1 else y
  let era : Int := y'.fdiv 400
  let yoe : Int := y' - era * 400
  let mp : Int := ((m : Int) + 9).emod 12
  let doy : Int := (153 * mp + 2).fdiv 5 + (d : Int) - 1
  let doe : Int := yoe * 365 + yoe.fdiv 4 - yoe.fdiv 100 + doy
  era * 146097 + doe - 719468

/-- `"%Y-%m-%d"`: result is a day number. -/
def parseYMD (cs : List Char) : Option (Int × List Char) :=
  match scanNum 4 cs with
  | none => none
  | some (y, cs) =>
    match expectChar '-' cs with
    | none => none
    | some cs =>
      match scanNum 2 cs with
      | none => none
      | some (m, cs) =>
        match expectChar '-' cs with
        | none => none
        | some cs =>
          match scanNum 2 cs with
          | none => none
          | some (d, cs) =>
            if 1 ≤ m ∧ m ≤ 12 ∧ 1 ≤ d ∧ d ≤ daysInMonth (y : Int) m then
              some (daysFromCivil (y : Int) m d, cs)
            else none

/-- `"%Y-%m-%d %H:%M:%S"`: result is naive seconds since epoch. -/
def parseYMDHMS (cs : List Char) : Option (Int × List Char) :=
  match parseYMD cs with
  | none => none
  | some (day, cs) =>
    match parseHMS (cs.dropWhile (fun c => c.isWhitespace)) with
    | none => none
    | some (t, cs) => some (day * 86400 + (t : Int), cs)

/-- `NaiveTime::parse_from_str(s, "%H:%M:%S")` (whole input consumed). -/
def from_time (s : String) : Option Nat :=
  match parseHMS s.data with
  | some (t, []) => some t
  | _ => none

/-- `Local.datetime_from_str(s, "%Y-%m-%d %H:%M:%S")`, as naive local
seconds since epoch (whole input consumed). -/
def from_date_time (s : String) : Option Int :=
  match parseYMDHMS s.data with
  | some (t, []) => some t
  | _ => none

/-- The `or_else` chain over `from_time`: `s`, `s ++ ":0"`, `s ++ ":0:0"`. -/
def timeChain (s : String) : Option Nat :=
  (from_time s).orElse (fun _ => (from_time (s ++ ":0")).orElse
    (fun _ => from_time (s ++ ":0:0")))

/-- The `or_else` chain over `from_date_time`. -/
def dateTimeChain (s : String) : Option Int :=
  (from_date_time s).orElse (fun _ => (from_date_time (s ++ ":0")).orElse
    (fun _ => from_date_time (s ++ ":0:0")))

/-- `parse_date_time`: try `%H:%M:%S` on `s`, `s ++ ":0"`, `s ++ ":0:0"`
(interpreted as today in local time), then the `%Y-%m-%d %H:%M:%S` chain;
result is a UTC instant. -/
def parse_date_time (env : Env) (s : String) : Except Unit Int :=
  match timeChain s with
  | some t => .ok (env.localToday * 86400 + (t : Int) - env.tzOffset)
  | none =>
    match dateTimeChain s with
    | some n => .ok (n - env.tzOffset)
    | none => .error ()

/-- `parse_date_or_date_time`: `%Y-%m-%d` first, then `%Y-%m-%d %H:%M:%S`,
then `parse_date_time` converted back to naive local time. -/
def parse_date_or_date_time (env : Env) (s : String) : Except Unit DateOrDateTime :=
  match parseYMD s.data with
  | some (d, []) => .ok (.Date d)
  | _ =>
    match parseYMDHMS s.data with
    | some (n, []) => .ok (.DateTime n)
    | _ => (parse_date_time env s).map (fun utc => .DateTime (utc + env.tzOffset))

/-!
## Event filtering (`filter_events`)
-/

/-- UTC instant of `00:00:00` local time on local day `d`
(`from_local_date(..).and_time(0,0,0)`). -/
def dateStartBound (env : Env) (d : Int) : Int := d * 86400 - env.tzOffset

/-- UTC instant of `23:59:59` local time on local day `d`. -/
def dateEndBound (env : Env) (d : Int) : Int := d * 86400 + 86399 - env.tzOffset

/-- UTC instant of a naive local datetime. -/
def dateTimeBound (env : Env) (n : Int) : Int := n - env.tzOffset

/-- The `from` window predicate of `filter_events` (comparison on
`timestamp_millis`, equivalent at whole-second precision). -/
def fromPred (env : Env) (b : Option DateOrDateTime) (e : TrackingEvent) : Bool :=
  match b with
  | none => true
  | some (.Date d) => dateStartBound env d ≤ e.time true
  | some (.DateTime n) => dateTimeBound env n ≤ e.time true

/-- The `to` window predicate of `filter_events`. -/
def toPred (env : Env) (b : Option DateOrDateTime) (e : TrackingEvent) : Bool :=
  match b with
  | none => true
  | some (.Date d) => e.time true ≤ dateEndBound env d
  | some (.DateTime n) => e.time true ≤ dateTimeBound env n

/-- The description predicate of `filter_events`
(`description.contains(filter)` is substring containment). -/
def descPred (filter? : Option String) (e : TrackingEvent) : Bool :=
  match filter?, e.description with
  | some f, some d => f = "all" || decide (f.data <:+: d.data)
  | some f, none => f = "all"
  | none, _ => true

/-- The non-`"week"` arm of the bound-resolution match in `filter_events`:
`from` defaults to today, `to` defaults to the date of `from`. -/
def resolveBoundsDefault (env : Env) (fromArg toArg filterArg : Option String) :
    Except Unit (Option String × Option DateOrDateTime × Option DateOrDateTime) :=
  match (match fromArg with
         | none => Except.ok (DateOrDateTime.Date env.localToday)
         | some s => parse_date_or_date_time env s) with
  | .error e => .error e
  | .ok fromB =>
    match (match toArg with
           | some s => parse_date_or_date_time env s
           | none => Except.ok (match fromB with
               | .DateTime n => DateOrDateTime.Date (n.fdiv 86400)
               | .Date d => DateOrDateTime.Date d)) with
    | .error e => .error e
    | .ok toB => .ok (filterArg, some fromB, some toB)

/-- The bound-resolution match at the top of `filter_events`:
`"week"` overrides everything with the Monday..Sunday window of the
current local week. -/
def resolveBounds (env : Env) (fromArg toArg filterArg : Option String) :
    Except Unit (Option String × Option DateOrDateTime × Option DateOrDateTime) :=
  match filterArg with
  | some f =>
    if f = "week" then
      let offset := weekdayFromMonday env.localToday
      .ok (none, some (.Date (env.localToday - offset)),
           some (.Date (env.localToday + (6 - offset))))
    else resolveBoundsDefault env fromArg toArg filterArg
  | none => resolveBoundsDefault env fromArg toArg filterArg

/-- `filter_events`: resolve bounds, apply the three filters, then drop a
leading run of `Stop` events. -/
def filter_events (env : Env) (data : List TrackingEvent)
    (fromArg toArg filterArg : Option String) : Except Unit (List TrackingEvent) :=
  match resolveBounds env fromArg toArg filterArg with
  | .error e => .error e
  | .ok (filter?, from?, to?) =>
    .ok ((((data.filter (fun e =>
          if filter?.getD "" = "all" then true else fromPred env from? e)).filter (fun e =>
          if filter?.getD "" = "all" then true else toPred env to? e)).filter (fun e =>
          descPred filter? e)).dropWhile (fun e => e.is_stop))

/-!
## Duration aggregation (`get_data_as_days`, `get_time_from_day`,
`get_time_from_events`, `split_duration`, `get_remaining_minutes`)
-/

/-- `time(true).date()`: the UTC calendar date of an event. -/
def dateOfEvent (e : TrackingEvent) : Int := (e.time true).fdiv 86400

/-- The grouping loop of `get_data_as_days`. -/
def gdadLoop : Int → List TrackingEvent → List TrackingEvent →
    List (List TrackingEvent) → List (List TrackingEvent)
  | _, [], current, result => if current.isEmpty then result else result ++ [current]
  | day, d :: rest, current, result =>
    if day = dateOfEvent d then gdadLoop day rest (current ++ [d]) result
    else gdadLoop (dateOfEvent d) rest [d] (result ++ [current])

/-- `get_data_as_days`: partition into contiguous same-UTC-date runs. -/
def get_data_as_days (data : List TrackingEvent) : List (List TrackingEvent) :=
  match data with
  | [] => []
  | first :: _ => gdadLoop (dateOfEvent first) data [] []

/-- `Iterator::find`: first element satisfying `p` and the rest after it. -/
def findP (p : TrackingEvent → Bool) : List TrackingEvent →
    Option (TrackingEvent × List TrackingEvent)
  | [] => none
  | e :: rest => if p e then some (e, rest) else findP p rest

theorem findP_length {p : TrackingEvent → Bool} :
    ∀ {l e r}, findP p l = some (e, r) → r.length < l.length := by
  intro l
  induction l with
  | nil => intro e r h; simp [findP] at h
  | cons x xs ih =>
    intro e r h
    rw [findP] at h
    by_cases hx : p x
    · rw [if_pos hx] at h
      simp only [Option.some.injEq, Prod.mk.injEq] at h
      obtain ⟨-, h2⟩ := h
      subst h2
      exact Nat.lt_succ_self _
    · rw [if_neg hx] at h
      exact Nat.lt_succ_of_lt (ih h)

/-- The pairing loop of `get_time_from_day`: returns the accumulated
worked time, first paired instant and last paired instant. -/
def gtfdLoop (env : Env) (inc : Bool) :
    List TrackingEvent → Int → Option Int → Option Int →
    Int × Option Int × Option Int
  | l, work_day, first, last =>
    match _hs : findP (fun e => e.is_start) l with
    | none => (work_day, first, last)
    | some (s, rest) =>
      match _ht : findP (fun e => e.is_stop) rest with
      | none =>
        let nowT := if inc then env.now else withSecondZero env.now
        (work_day + (nowT - s.time inc), some (first.getD (s.time inc)), some nowT)
      | some (t, rest2) =>
        gtfdLoop env inc rest2 (work_day + (t.time inc - s.time inc))
          (some (first.getD (s.time inc))) (some (t.time inc))
termination_by l => l.length
decreasing_by
  exact Nat.lt_trans (findP_length _ht) (findP_length _hs)

/-- `get_time_from_day`: greedy pairing plus the minimum-break deduction,
clamped at zero. -/
def get_time_from_day (env : Env) (settings : Settings)
    (data : List TrackingEvent) (include_seconds : Bool) : Int :=
  let r := gtfdLoop env include_seconds data 0 none none
  let work_day := r.1
  let work_day :=
    if settings.min_daily_break > 0 then
      let total := r.2.2.getD env.now - r.2.1.getD env.now
      let pause := total - work_day
      let minB : Int := (settings.min_daily_break : Int) * 60
      if 0 < pause ∧ pause < minB then work_day - (minB - pause) else work_day
    else work_day
  max work_day 0

/-- `get_time_from_events`: sum the per-day durations. -/
def get_time_from_events (env : Env) (settings : Settings)
    (data : List TrackingEvent) (include_seconds : Bool) : Int :=
  (get_data_as_days data).foldl
    (fun time day => time + get_time_from_day env settings day include_seconds) 0

/-- `split_duration` (chrono `num_hours` and friends truncate toward zero). -/
def split_duration (d : Int) : Int × Int × Int :=
  let hours := d.tdiv 3600
  let minutes := d.tdiv 60 - hours * 60
  (hours, minutes, d - hours * 3600 - minutes * 60)

/-- `get_remaining_minutes`. -/
def get_remaining_minutes (settings : Settings) (filter : String)
    (hours minutes : Int) : Int :=
  let total := minutes + hours * 60
  let tg := if filter = "week" then settings.time_goal.weekly else settings.time_goal.daily
  ((tg.minutes : Int) + (tg.hours : Int) * 60) - total

/-!
## The `show` command
-/

/-- `str::replace`: replace all non-overlapping occurrences of `pattern`
left to right. Fuel-structured so the kernel can evaluate it; `fuel` is
the input length, which suffices because every step consumes at least one
character (the placeholders replaced are never empty). -/
def replaceListAux (p r : List Char) : Nat → List Char → List Char
  | 0, cs => cs
  | _ + 1, [] => []
  | fuel + 1, c :: rest =>
    if p.isPrefixOf (c :: rest) then
      r ++ replaceListAux p r fuel ((c :: rest).drop p.length)
    else c :: replaceListAux p r fuel rest

/-- `str::replace` on strings. -/
def replaceStr (s pattern repl : String) : String :=
  ⟨replaceListAux pattern.data repl.data s.data.length s.data⟩

/-- `format!("\x7b:02\x7d", n)`: zero-pad to two characters. -/
def pad2i (n : Int) : String :=
  if 0 ≤ n ∧ n < 10 then "0" ++ toString n else toString n

/-- The placeholder substitution of `show`. -/
def formatTime (fmt : String) (hours minutes seconds : Int) : String :=
  replaceStr (replaceStr (replaceStr (replaceStr (replaceStr (replaceStr
    fmt "{hh}" (pad2i hours)) "{mm}" (pad2i minutes)) "{ss}" (pad2i seconds))
    "{h}" (toString hours)) "{m}" (toString minutes)) "{s}" (toString seconds)

/-- What `show` writes: the printed line (`none` when it returned after the
usage warning) and whether the usage warning was printed. -/
structure ShowResult where
  output : Option String
  warned : Bool
deriving DecidableEq

/-- The tail of `show`: build the output line from the final
hours/minutes/seconds. -/
def showRender (format : Option String) (include_seconds plain remaining : Bool)
    (hours minutes seconds : Int) : ShowResult :=
  let seconds_final := if include_seconds then seconds else 0
  let fmt := format.getD "{hh}:{mm}:{ss}"
  let time := formatTime fmt hours minutes seconds_final
  ⟨some (if plain then time
         else if remaining then "Remaining Work Time: " ++ time
         else "Work Time: " ++ time), false⟩

/-- `show`. -/
def showCommand (env : Env) (settings : Settings) (data : List TrackingEvent)
    (fromArg toArg filterArg : Option String) (format : Option String)
    (include_seconds plain remaining : Bool) : Except Unit ShowResult :=
  match filter_events env data fromArg toArg filterArg with
  | .error e => .error e
  | .ok filtered_data =>
    let work_time := get_time_from_events env settings filtered_data include_seconds
    let hms := split_duration work_time
    let filterStr := filterArg.getD ""
    if remaining then
      if (filterStr = "week" ∨ filterStr = "") ∧ fromArg = none ∧ toArg = none then
        let rm0 := get_remaining_minutes settings filterStr hms.1 hms.2.1
        let rm1 : Except Unit Int :=
          if filterStr ≠ "week" then
            match filter_events env data none none (some "week") with
            | .error e => .error e
            | .ok filtered_week =>
              let week_time := get_time_from_events env settings filtered_week include_seconds
              let whm := split_duration week_time
              let rmWeek := get_remaining_minutes settings "week" whm.1 whm.2.1
              .ok (if weekdayFromMonday env.localToday = settings.last_day_of_work_week
                   then rmWeek else min rm0 rmWeek)
          else .ok rm0
        match rm1 with
        | .error e => .error e
        | .ok rm =>
          let rm2 := max rm 0
          let hours := rm2.tdiv 60
          .ok (showRender format include_seconds plain remaining
                hours (rm2 - hours * 60) 0)
      else .ok ⟨none, true⟩
    else .ok (showRender format include_seconds plain remaining hms.1 hms.2.1 hms.2.2)

/-!
## Mutating commands (`start_tracking`, `stop_tracking`,
`continue_tracking`)
-/

/-- `start_tracking`. Warnings go to stderr and leave the list unchanged;
the result is the new event list. -/
def start_tracking (env : Env) (settings : Settings) (data : List TrackingEvent)
    (description atArg : Option String) : Except Unit (List TrackingEvent) :=
  let should_add := match data.getLast? with
    | none => true
    | some e => e.is_stop
  let last_description := match data.getLast? with
    | none => none
    | some e => e.description
  if should_add || atArg.isSome then
    match atArg with
    | none => .ok (data ++ [.Start ⟨description, env.now⟩])
    | some s => (parse_date_time env s).map (fun t => data ++ [.Start ⟨description, t⟩])
  else if settings.auto_insert_stop && atArg.isNone then
    match description, last_description with
    | some d, some ld =>
      if d = ld then .ok data
      else .ok (data ++ [.Stop ⟨none, env.now⟩, .Start ⟨some d, env.now⟩])
    | d, _ => .ok (data ++ [.Stop ⟨none, env.now⟩, .Start ⟨d, env.now⟩])
  else .ok data

/-- `stop_tracking`. -/
def stop_tracking (env : Env) (data : List TrackingEvent)
    (description atArg : Option String) : Except Unit (List TrackingEvent) :=
  let should_add := match data.getLast? with
    | none => true
    | some e => e.is_start
  if should_add || atArg.isSome then
    match atArg with
    | none => .ok (data ++ [.Stop ⟨description, env.now⟩])
    | some s => (parse_date_time env s).map (fun t => data ++ [.Stop ⟨description, t⟩])
  else .ok data

/-- `continue_tracking`: the boolean records whether the cannot-continue
message was printed. -/
def continue_tracking (env : Env) (data : List TrackingEvent) :
    List TrackingEvent × Bool :=
  match data.getLast? with
  | some (.Stop _) =>
    (match (data.reverse.find? (fun t => t.is_start)) with
     | some (.Start td) => (data ++ [.Start ⟨td.description, env.now⟩], false)
     | _ => (data, false))
  | _ => (data, true)

/-!
## The interactive conflict resolver (`cleanup`)

The blocking console reads are injected as a list of answer lines; at end
of file `read_line` yields an empty line, which the code treats as `skip`.
-/

/-- The scan loop of `cleanup`. Arguments: remaining events, `is_start`
(kind of the last accepted event), `cleaned`, the open `conflicting` run,
`all_conflicting`. Returns `cleaned`, the queued runs, and the run still
open when the input ended (which the code drops on the floor). -/
def cleanupScan : List TrackingEvent → Option Bool → List TrackingEvent →
    List TrackingEvent → List (List TrackingEvent) →
    List TrackingEvent × List (List TrackingEvent) × List TrackingEvent
  | [], _, cleaned, conflicting, all => (cleaned, all, conflicting)
  | e :: rest, none, cleaned, conflicting, all =>
    cleanupScan rest (some e.is_start) (cleaned ++ [e]) conflicting all
  | e :: rest, some true, cleaned, conflicting, all =>
    if e.is_start then
      (if conflicting.isEmpty then
        cleanupScan rest (some true) cleaned.dropLast
          (cleaned.getLast?.toList ++ [e]) all
      else cleanupScan rest (some true) cleaned (conflicting ++ [e]) all)
    else
      (if conflicting.isEmpty then
        cleanupScan rest (some false) (cleaned ++ [e]) conflicting all
      else cleanupScan rest (some false) (cleaned ++ [e]) [] (all ++ [conflicting]))
  | e :: rest, some false, cleaned, conflicting, all =>
    if e.is_stop then
      (if conflicting.isEmpty then
        cleanupScan rest (some false) cleaned.dropLast
          (cleaned.getLast?.toList ++ [e]) all
      else cleanupScan rest (some false) cleaned (conflicting ++ [e]) all)
    else
      (if conflicting.isEmpty then
        cleanupScan rest (some true) (cleaned ++ [e]) conflicting all
      else cleanupScan rest (some true) (cleaned ++ [e]) [] (all ++ [conflicting]))

/-- `str::trim`: strip leading and trailing whitespace (ASCII whitespace
in this model; the operator answers of interest are ASCII). -/
def trimStr (s : String) : String :=
  ⟨((s.data.dropWhile Char.isWhitespace).reverse.dropWhile
      Char.isWhitespace).reverse⟩

/-- `text.parse::<usize>()`: all-digit strings only (the `+` sign prefix
Rust also accepts is not modelled; no claim exercises it). -/
def parseNatAnswer (cs : List Char) : Option Nat :=
  if cs ≠ [] ∧ cs.all Char.isDigit then
    some (cs.foldl (fun a c => a * 10 + (c.toNat - 48)) 0)
  else none

/-- The interactive resolution loop for one conflict run: consume answer
lines until one is `skip`, empty (EOF), or a valid index; invalid lines
re-prompt. Returns the extended `cleaned` and the unconsumed answers. -/
def resolveRun (run : List TrackingEvent) :
    List TrackingEvent → List String → List TrackingEvent × List String
  | cleaned, [] => (cleaned ++ run, [])
  | cleaned, a :: rest =>
    let text := trimStr a
    if text = "skip" || text = "" then (cleaned ++ run, rest)
    else
      match parseNatAnswer text.data with
      | some n =>
        match run.get? n with
        | some v => (cleaned ++ [v], rest)
        | none => resolveRun run cleaned rest
      | none => resolveRun run cleaned rest

/-- Resolve all queued conflict runs in order, threading the answer lines. -/
def resolveAll : List (List TrackingEvent) → List TrackingEvent →
    List String → List TrackingEvent
  | [], cleaned, _ => cleaned
  | run :: runs, cleaned, answers =>
    let r := resolveRun run cleaned answers
    resolveAll runs r.1 r.2

/-- `cleanup`, with the operator console modelled as a list of answer
lines. -/
def cleanup (data : List TrackingEvent) (answers : List String) :
    List TrackingEvent :=
  let r := cleanupScan data none [] [] []
  resolveAll r.2.1 r.1 answers

/-- The conflict run still open when `cleanup`'s scan hits the end of the
input (the code never queues it). -/
def cleanupLeftover (data : List TrackingEvent) : List TrackingEvent :=
  (cleanupScan data none [] [] []).2.2

/-!
## Persistence transform of `main` (`sort_by_key` + `dedup`)
-/

/-- The sort key: `e.time(true)`. -/
def eventKey (e : TrackingEvent) : Int := e.time true

/-- Ordering by key used by `sort_by_key`. -/
def eventLE (a b : TrackingEvent) : Prop := eventKey a ≤ eventKey b

instance : DecidableRel eventLE := fun _ _ => Int.decLe _ _

instance : IsTotal TrackingEvent eventLE :=
  ⟨fun a b => Int.le_total (eventKey a) (eventKey b)⟩

instance : IsTrans TrackingEvent eventLE :=
  ⟨fun _ _ _ h1 h2 => Int.le_trans h1 h2⟩

/-- The tail of `Vec::dedup` after an already-kept element `a`: drop
elements equal to the last kept one. -/
def dedupAfter (a : TrackingEvent) : List TrackingEvent → List TrackingEvent
  | [] => []
  | b :: rest => if a = b then dedupAfter a rest else b :: dedupAfter b rest

/-- `Vec::dedup`: remove consecutive equal elements, keeping the first of
each run. -/
def dedupConsec : List TrackingEvent → List TrackingEvent
  | [] => []
  | a :: rest => a :: dedupAfter a rest

/-- What `main` does to a changed log before writing it:
`data.sort_by_key(|e| e.time(true)); data.dedup()`. Rust `sort_by_key` is
a stable sort; a stable sort by a total key is a unique function, realised
here by insertion sort. -/
def persistTransform (data : List TrackingEvent) : List TrackingEvent :=
  dedupConsec (List.insertionSort eventLE data)

/-!
## Helper lemmas
-/

theorem is_stop_eq_not_is_start (e : TrackingEvent) : e.is_stop = !e.is_start := by
  cases e <;> rfl

theorem descPred_all (e : TrackingEvent) : descPred (some "all") e = true := by
  unfold descPred
  cases e.description <;> simp

theorem descPred_none (e : TrackingEvent) : descPred none e = true := by
  unfold descPred
  cases e.description <;> simp

/-- Under `"all"`, all three filter predicates pass every event; only the
leading-`Stop` skip remains active. -/
theorem filter_events_all (env : Env) (data : List TrackingEvent)
    (fromArg toArg : Option String)
    (hf : ∀ s, fromArg = some s → ∃ b, parse_date_or_date_time env s = Except.ok b)
    (ht : ∀ s, toArg = some s → ∃ b, parse_date_or_date_time env s = Except.ok b) :
    filter_events env data fromArg toArg (some "all") =
      .ok (data.dropWhile (fun e => e.is_stop)) := by
  have hres : ∃ fb tb,
      resolveBounds env fromArg toArg (some "all") = .ok (some "all", fb, tb) := by
    rw [resolveBounds]
    simp only [reduceIte, String.reduceEq]
    unfold resolveBoundsDefault
    cases fromArg with
    | none =>
      cases toArg with
      | none => exact ⟨_, _, rfl⟩
      | some s =>
        obtain ⟨b, hb⟩ := ht s rfl
        dsimp only
        rw [hb]
        exact ⟨_, _, rfl⟩
    | some s =>
      obtain ⟨b, hb⟩ := hf s rfl
      dsimp only
      rw [hb]
      cases toArg with
      | none => exact ⟨_, _, rfl⟩
      | some s2 =>
        obtain ⟨b2, hb2⟩ := ht s2 rfl
        dsimp only
        rw [hb2]
        exact ⟨_, _, rfl⟩
  obtain ⟨fb, tb, hres⟩ := hres
  rw [filter_events, hres]
  have e1 : ∀ (b : Option DateOrDateTime) (p : Env → Option DateOrDateTime → TrackingEvent → Bool),
      (data.filter fun e => if (some "all").getD "" = "all" then true else p env b e) = data := by
    intro b p
    apply List.filter_eq_self.mpr
    intro a _
    simp
  have e3 : (data.filter fun e => descPred (some "all") e) = data :=
    List.filter_eq_self.mpr (fun a _ => descPred_all a)
  simp only [Option.getD, String.reduceEq, if_true, reduceIte]
  rw [List.filter_eq_self.mpr (fun (a : TrackingEvent) _ => rfl),
      List.filter_eq_self.mpr (fun (a : TrackingEvent) _ => rfl),
      List.filter_eq_self.mpr (fun (a : TrackingEvent) _ => descPred_all a)]

/-- C1: the claim predicts `filter_events` with `"all"` returns every
event; the code still drops a leading run of `Stop` events, so a log
beginning with a `Stop` loses it. -/
theorem claim_C1_counterexample :
    filter_events ⟨0, 0⟩ [TrackingEvent.Stop ⟨none, 0⟩] none none (some "all") =
      .ok [] ∧
    TrackingEvent.Stop ⟨none, 0⟩ ∈ [TrackingEvent.Stop ⟨none, 0⟩] ∧
    TrackingEvent.Stop ⟨none, 0⟩ ∉ ([] : List TrackingEvent) :=
  ⟨rfl, by simp, by simp⟩

/-- C1 (amended): with filter `"all"` and parseable (or absent) bounds,
both time-window predicates and the description predicate pass every
event, and the output is the input in original order except that a
leading run of `Stop` events is dropped. -/
theorem claim_C1 (env : Env) (data : List TrackingEvent)
    (fromArg toArg : Option String)
    (hf : ∀ s, fromArg = some s → ∃ b, parse_date_or_date_time env s = Except.ok b)
    (ht : ∀ s, toArg = some s → ∃ b, parse_date_or_date_time env s = Except.ok b) :
    filter_events env data fromArg toArg (some "all") =
      .ok (data.dropWhile (fun e => e.is_stop)) :=
  filter_events_all env data fromArg toArg hf ht

theorem claim_C1_witness :
    filter_events ⟨0, 0⟩
        [TrackingEvent.Stop ⟨none, 5⟩, TrackingEvent.Start ⟨some "x", 9⟩]
        none none (some "all") =
      .ok ([TrackingEvent.Stop ⟨none, 5⟩,
            TrackingEvent.Start ⟨some "x", 9⟩].dropWhile (fun e => e.is_stop)) :=
  claim_C1 ⟨0, 0⟩ _ none none (fun s h => by cases h) (fun s h => by cases h)

/-- With filter `"week"` the bounds are the current local week, the
description filter is cleared, and the supplied `from`/`to` are never
consulted. -/
theorem filter_events_week (env : Env) (data : List TrackingEvent)
    (fa ta : Option String) :
    filter_events env data fa ta (some "week") =
      .ok (((data.filter (fun e =>
          fromPred env
            (some (.Date (env.localToday - weekdayFromMonday env.localToday))) e)).filter
          (fun e =>
          toPred env
            (some (.Date (env.localToday + (6 - weekdayFromMonday env.localToday)))) e)).dropWhile
          (fun e => e.is_stop)) := by
  rw [filter_events, resolveBounds]
  dsimp only
  rw [if_pos rfl]
  dsimp only
  rw [List.filter_eq_self.mpr (fun (a : TrackingEvent) _ => descPred_none a)]
  have h1 : (fun (e : TrackingEvent) =>
      if (none : Option String).getD "" = "all" then true
      else fromPred env
        (some (.Date (env.localToday - weekdayFromMonday env.localToday))) e) =
      (fun e => fromPred env
        (some (.Date (env.localToday - weekdayFromMonday env.localToday))) e) := by
    funext e
    simp
  have h2 : (fun (e : TrackingEvent) =>
      if (none : Option String).getD "" = "all" then true
      else toPred env
        (some (.Date (env.localToday + (6 - weekdayFromMonday env.localToday)))) e) =
      (fun e => toPred env
        (some (.Date (env.localToday + (6 - weekdayFromMonday env.localToday)))) e) := by
    funext e
    simp
  rw [h1, h2]

/-- C5: with filter `"week"` the supplied `from`/`to` are ignored (even
unparseable ones), the bounds are the `Date` of Monday of the current
local week and the `Date` of the following Sunday (widened to day
boundaries by the `Date` window predicates), and no description filtering
is applied. -/
theorem claim_C5 (env : Env) (data : List TrackingEvent)
    (fromArg toArg : Option String) :
    (filter_events env data fromArg toArg (some "week") =
      .ok (((data.filter (fun e =>
          fromPred env
            (some (.Date (env.localToday - weekdayFromMonday env.localToday))) e)).filter
          (fun e =>
          toPred env
            (some (.Date (env.localToday + (6 - weekdayFromMonday env.localToday)))) e)).dropWhile
          (fun e => e.is_stop))) ∧
    filter_events env data fromArg toArg (some "week") =
      filter_events env data none none (some "week") :=
  ⟨filter_events_week env data fromArg toArg,
   by rw [filter_events_week env data fromArg toArg,
          filter_events_week env data none none]⟩

/-- Adjacent events of different kinds: the no-conflict invariant. -/
@[reducible] def Alternating (data : List TrackingEvent) : Prop :=
  List.Chain' (fun a b => a.is_start ≠ b.is_start) data

/-- On an alternating suffix whose head differs in kind from the last
accepted event, the scan accepts everything and queues nothing new. -/
theorem cleanupScan_alternating :
    ∀ (l : List TrackingEvent) (b : Bool) (cleaned : List TrackingEvent)
      (all : List (List TrackingEvent)),
      Alternating l →
      (∀ e, l.head? = some e → e.is_start ≠ b) →
      cleanupScan l (some b) cleaned [] all = (cleaned ++ l, all, []) := by
  intro l
  induction l with
  | nil => intro b cleaned all _ _; simp [cleanupScan]
  | cons e rest ih =>
    intro b cleaned all halt hhead
    have he : e.is_start ≠ b := hhead e rfl
    have hrest : Alternating rest := (List.chain'_cons'.mp halt).2
    have hnext : ∀ e2, rest.head? = some e2 → e2.is_start ≠ e.is_start :=
      fun e2 h2 hEq => ((List.chain'_cons'.mp halt).1 e2 h2) hEq.symm
    cases b with
    | true =>
      have hf : e.is_start = false := by
        cases his : e.is_start
        · rfl
        · exact absurd his he
      rw [cleanupScan, hf]
      simp only [Bool.false_eq_true, if_false, List.isEmpty_nil, if_true]
      rw [ih false (cleaned ++ [e]) all hrest ?_]
      · simp
      · intro e2 h2
        intro hEq
        exact (hnext e2 h2) (hEq.trans hf.symm)
    | false =>
      have hf : e.is_start = true := by
        cases his : e.is_start
        · exact absurd his he
        · rfl
      have hfstop : e.is_stop = false := by
        rw [is_stop_eq_not_is_start, hf]
        rfl
      rw [cleanupScan, hfstop]
      simp only [Bool.false_eq_true, if_false, List.isEmpty_nil, if_true]
      rw [ih true (cleaned ++ [e]) all hrest ?_]
      · simp
      · intro e2 h2
        intro hEq
        exact (hnext e2 h2) (hEq.trans hf.symm)

/-- C7: on an already-alternating sequence, `cleanup` queues no conflict
run and returns the sequence unchanged, whatever the operator would have
answered. -/
theorem claim_C7 (data : List TrackingEvent) (answers : List String)
    (h : Alternating data) :
    (cleanupScan data none [] [] []).2.1 = [] ∧
    cleanup data answers = data := by
  cases data with
  | nil => exact ⟨rfl, rfl⟩
  | cons e rest =>
    have hscan : cleanupScan (e :: rest) none [] [] [] = ([e] ++ rest, [], []) := by
      rw [cleanupScan]
      exact cleanupScan_alternating rest e.is_start [e] []
        (List.chain'_cons'.mp h).2
        (fun e2 h2 hEq => ((List.chain'_cons'.mp h).1 e2 h2) hEq.symm)
    constructor
    · rw [hscan]
    · rw [cleanup, hscan]
      rfl

theorem claim_C7_witness :
    (cleanupScan
        [TrackingEvent.Start ⟨some "x", 1⟩, TrackingEvent.Stop ⟨none, 2⟩,
         TrackingEvent.Start ⟨none, 3⟩] none [] [] []).2.1 = [] ∧
    cleanup
        [TrackingEvent.Start ⟨some "x", 1⟩, TrackingEvent.Stop ⟨none, 2⟩,
         TrackingEvent.Start ⟨none, 3⟩] ["0"] =
      [TrackingEvent.Start ⟨some "x", 1⟩, TrackingEvent.Stop ⟨none, 2⟩,
       TrackingEvent.Start ⟨none, 3⟩] :=
  claim_C7 _ ["0"]
    (by simp [Alternating, List.chain'_cons, TrackingEvent.is_start])

/-- A well-formed day-run: one `Start`/`Stop` pair per element. -/
def pairsToDay : List (Int × Int) → List TrackingEvent
  | [] => []
  | p :: ps => .Start ⟨none, p.1⟩ :: .Stop ⟨none, p.2⟩ :: pairsToDay ps

theorem time_true (e : TrackingEvent) : e.time true = e.payload.time := rfl

theorem findP_cons_pos {pred : TrackingEvent → Bool} {e : TrackingEvent}
    {rest : List TrackingEvent} (h : pred e = true) :
    findP pred (e :: rest) = some (e, rest) := by
  rw [findP, if_pos h]

/-- The pairing loop on a well-formed day: worked time is the sum of the
pair gaps, `first` the first start, `last` the last stop. -/
theorem gtfdLoop_pairs (env : Env) :
    ∀ (ps : List (Int × Int)) (p : Int × Int) (wd : Int) (fi : Option Int)
      (la : Option Int),
      gtfdLoop env true (pairsToDay (p :: ps)) wd fi la =
        (wd + ((p :: ps).map (fun q => q.2 - q.1)).sum,
         some (fi.getD p.1), some (ps.getLastD p).2) := by
  intro ps
  induction ps with
  | nil =>
    intro p wd fi la
    rw [pairsToDay, pairsToDay, gtfdLoop, findP_cons_pos rfl]
    dsimp only
    rw [findP_cons_pos rfl]
    dsimp only
    simp only [time_true]
    dsimp only [TrackingEvent.payload]
    rw [gtfdLoop, findP]
    dsimp only
    simp only [List.map_cons, List.map_nil, List.sum_cons, List.sum_nil,
      List.getLastD_nil, Prod.mk.injEq]
    exact ⟨by ring, trivial⟩
  | cons q ps ih =>
    intro p wd fi la
    rw [pairsToDay, gtfdLoop, findP_cons_pos rfl]
    dsimp only
    rw [findP_cons_pos rfl]
    dsimp only
    simp only [time_true]
    dsimp only [TrackingEvent.payload]
    rw [ih q (wd + (p.2 - p.1)) (some (fi.getD p.1)) (some p.2)]
    simp only [Option.getD_some, List.getLastD_cons, List.map_cons, List.sum_cons,
      Prod.mk.injEq]
    exact ⟨by ring, trivial⟩

/-- The concrete settings of C3's scenario: `min_daily_break = 30`. -/
def settingsBreak30 : Settings := ⟨false, 30, ⟨⟨8, 0⟩, ⟨40, 0⟩⟩, 4⟩

/-- C3: on a well-formed single-day run the aggregator computes `work_day`
by greedy pairing, `total` as last paired instant minus first paired
instant, `pause = total - work_day`; whenever `0 < pause < min_daily_break`
minutes it subtracts `min_daily_break - pause`, and the result is clamped
at zero. Concretely: pairs 09:00-12:00 and 12:10-17:30 with
`min_daily_break = 30` work out to the raw 8h20m minus exactly 20 minutes. -/
theorem claim_C3 :
    (∀ (env : Env) (settings : Settings) (p : Int × Int) (ps : List (Int × Int)),
      get_time_from_day env settings (pairsToDay (p :: ps)) true =
        (fun work total =>
          (fun pause minB =>
            max (if 0 < pause ∧ pause < minB then work - (minB - pause) else work) 0)
          (total - work) ((settings.min_daily_break : Int) * 60))
          (((p :: ps).map (fun q => q.2 - q.1)).sum) ((ps.getLastD p).2 - p.1)) ∧
    get_time_from_day ⟨200000, 0⟩ settingsBreak30
        (pairsToDay [(32400, 43200), (43800, 63000)]) true =
      (3 * 3600 + (5 * 3600 + 20 * 60)) - 20 * 60 := by
  have hmain : ∀ (env : Env) (settings : Settings) (p : Int × Int)
      (ps : List (Int × Int)),
      get_time_from_day env settings (pairsToDay (p :: ps)) true =
        (fun work total =>
          (fun pause minB =>
            max (if 0 < pause ∧ pause < minB then work - (minB - pause) else work) 0)
          (total - work) ((settings.min_daily_break : Int) * 60))
          (((p :: ps).map (fun q => q.2 - q.1)).sum) ((ps.getLastD p).2 - p.1) := by
    intro env settings p ps
    rw [get_time_from_day, gtfdLoop_pairs env ps p 0 none none]
    dsimp only [Option.getD]
    simp only [zero_add]
    by_cases hmb : settings.min_daily_break > 0
    · rw [if_pos hmb]
    · rw [if_neg hmb]
      have hz : settings.min_daily_break = 0 := by omega
      rw [hz]
      have hcond : ∀ x : Int, ¬ (0 < x ∧ x < ((0 : Nat) : Int) * 60) := by
        intro x
        push_cast
        omega
      rw [if_neg (hcond _)]
  refine ⟨hmain, ?_⟩
  rw [hmain ⟨200000, 0⟩ settingsBreak30 (32400, 43200) [(43800, 63000)]]
  decide

/-- C9: with the log ending in a `Start`, `auto_insert_stop` on and no
explicit time, a `start` whose description equals the running `Start`'s
description leaves the list unchanged (only a warning is printed); any
other description, or none, appends an implicit `Stop` and then the new
`Start`. -/
theorem claim_C9 (env : Env) (settings : Settings) (data : List TrackingEvent)
    (e : TrackingEvent) (description : Option String)
    (h1 : data.getLast? = some e) (h2 : e.is_start = true)
    (h3 : settings.auto_insert_stop = true) :
    (∀ d, description = some d → e.description = some d →
       start_tracking env settings data description none = .ok data) ∧
    (description = none ∨ description ≠ e.description →
       start_tracking env settings data description none =
         .ok (data ++ [.Stop ⟨none, env.now⟩, .Start ⟨description, env.now⟩])) := by
  have hstop : e.is_stop = false := by
    rw [is_stop_eq_not_is_start, h2]
    rfl
  have hbody : start_tracking env settings data description none =
      match description, e.description with
      | some d, some ld =>
        if d = ld then Except.ok data
        else Except.ok (data ++ [.Stop ⟨none, env.now⟩, .Start ⟨some d, env.now⟩])
      | d, _ => Except.ok (data ++ [.Stop ⟨none, env.now⟩, .Start ⟨d, env.now⟩]) := by
    rw [start_tracking.eq_def, h1]
    dsimp only
    rw [hstop, h3]
    rfl
  constructor
  · intro d hd hed
    rw [hbody, hd, hed]
    dsimp only
    rw [if_pos rfl]
  · intro hcase
    rw [hbody]
    rcases hdescr : description with _ | d
    · rfl
    · rw [hdescr] at hcase
      cases hed : e.description with
      | none => rfl
      | some ld =>
        rw [hed] at hcase
        dsimp only
        rw [if_neg ?_]
        intro hEq
        rcases hcase with hnone | hne
        · cases hnone
        · exact hne (by rw [hEq])

theorem claim_C9_witness :
    start_tracking ⟨1000, 0⟩ ⟨true, 0, ⟨⟨0, 0⟩, ⟨0, 0⟩⟩, 0⟩
        [TrackingEvent.Start ⟨some "a", 1⟩] (some "b") none =
      .ok [TrackingEvent.Start ⟨some "a", 1⟩,
           TrackingEvent.Stop ⟨none, 1000⟩,
           TrackingEvent.Start ⟨some "b", 1000⟩] :=
  (claim_C9 ⟨1000, 0⟩ ⟨true, 0, ⟨⟨0, 0⟩, ⟨0, 0⟩⟩, 0⟩
      [TrackingEvent.Start ⟨some "a", 1⟩] (TrackingEvent.Start ⟨some "a", 1⟩)
      (some "b") rfl rfl rfl).2 (Or.inr (by decide))

/-- The description of the most recent `Start` in the log
(`data.iter().rev().find(is_start)`). -/
def lastStartDescription (data : List TrackingEvent) : Option String :=
  match data.reverse.find? (fun t => t.is_start) with
  | some e => e.description
  | none => none

/-- C10: `continue_tracking` appends exactly one `Start` carrying the most
recent `Start`'s description and the current time, precisely when the log
ends in a `Stop` and contains a `Start`; otherwise the list is unchanged,
and with a trailing `Stop` but no `Start` anywhere no message is printed
(the message is printed exactly when the log does not end in a `Stop`). -/
theorem claim_C10 (env : Env) (data : List TrackingEvent) :
    (∀ td, data.getLast? = some (.Stop td) →
       data.any (fun e => e.is_start) = true →
       continue_tracking env data =
         (data ++ [.Start ⟨lastStartDescription data, env.now⟩], false)) ∧
    (∀ td, data.getLast? = some (.Stop td) →
       data.any (fun e => e.is_start) = false →
       continue_tracking env data = (data, false)) ∧
    ((∀ td, data.getLast? ≠ some (.Stop td)) →
       continue_tracking env data = (data, true)) := by
  refine ⟨?_, ?_, ?_⟩
  · intro td hlast hany
    have hex : ∃ x ∈ data.reverse, (fun t => TrackingEvent.is_start t) x = true := by
      obtain ⟨x, hx, hxs⟩ := List.any_eq_true.mp hany
      exact ⟨x, List.mem_reverse.mpr hx, hxs⟩
    have hfind : data.reverse.find? (fun t => t.is_start) ≠ none := by
      intro hnone
      obtain ⟨x, hx, hxs⟩ := hex
      exact absurd hxs (by simpa using List.find?_eq_none.mp hnone x hx)
    obtain ⟨f, hf⟩ := Option.ne_none_iff_exists'.mp hfind
    have hfs : f.is_start = true := List.find?_some hf
    cases f with
    | Stop d => simp [TrackingEvent.is_start] at hfs
    | Start d =>
      rw [continue_tracking, hlast]
      dsimp only
      rw [hf]
      dsimp only
      rw [lastStartDescription, hf]
      rfl
  · intro td hlast hany
    have hfind : data.reverse.find? (fun t => t.is_start) = none := by
      rw [List.find?_eq_none]
      intro x hx
      have hmem : x ∈ data := List.mem_reverse.mp hx
      have := List.any_eq_false.mp hany x hmem
      simpa using this
    rw [continue_tracking, hlast]
    dsimp only
    rw [hfind]
  · intro hnot
    rw [continue_tracking]
    cases hlast : data.getLast? with
    | none => rfl
    | some e =>
      cases e with
      | Start d => rfl
      | Stop d => exact absurd hlast (hnot d)

theorem claim_C10_witness :
    continue_tracking ⟨500, 0⟩
        [TrackingEvent.Start ⟨some "x", 1⟩, TrackingEvent.Stop ⟨none, 2⟩] =
      ([TrackingEvent.Start ⟨some "x", 1⟩, TrackingEvent.Stop ⟨none, 2⟩] ++
        [TrackingEvent.Start
          ⟨lastStartDescription
            [TrackingEvent.Start ⟨some "x", 1⟩, TrackingEvent.Stop ⟨none, 2⟩], 500⟩],
       false) :=
  (claim_C10 ⟨500, 0⟩ _).1 ⟨none, 2⟩ rfl (by decide)

theorem dedupAfter_sublist :
    ∀ (rest : List TrackingEvent) (a : TrackingEvent),
      List.Sublist (dedupAfter a rest) rest := by
  intro rest
  induction rest with
  | nil => intro a; rw [dedupAfter]
  | cons b rest ih =>
    intro a
    rw [dedupAfter]
    by_cases h : a = b
    · rw [if_pos h]
      exact (ih a).cons b
    · rw [if_neg h]
      exact (ih b).cons₂ b

theorem dedupConsec_sublist (l : List TrackingEvent) :
    List.Sublist (dedupConsec l) l := by
  cases l with
  | nil => rw [dedupConsec]
  | cons a rest =>
    rw [dedupConsec]
    exact (dedupAfter_sublist rest a).cons₂ a

theorem dedupAfter_chain' :
    ∀ (rest : List TrackingEvent) (a : TrackingEvent),
      List.Chain' (fun x y => x ≠ y) (a :: dedupAfter a rest) := by
  intro rest
  induction rest with
  | nil => intro a; rw [dedupAfter]; exact List.chain'_singleton a
  | cons b rest ih =>
    intro a
    rw [dedupAfter]
    by_cases h : a = b
    · rw [if_pos h]
      exact ih a
    · rw [if_neg h]
      exact List.chain'_cons.mpr ⟨h, ih b⟩

theorem dedupConsec_chain' (l : List TrackingEvent) :
    List.Chain' (fun a b => a ≠ b) (dedupConsec l) := by
  cases l with
  | nil => rw [dedupConsec]; exact List.chain'_nil
  | cons a rest =>
    rw [dedupConsec]
    exact dedupAfter_chain' rest a

/-- C6: the claim predicts no two equal events survive persistence; but
`Vec::dedup` removes only consecutive duplicates, and the stable sort
keeps equal-time events in log order, so two equal events separated by a
distinct event with the same timestamp both survive. -/
theorem claim_C6_counterexample :
    persistTransform
        [TrackingEvent.Start ⟨none, 100⟩, TrackingEvent.Start ⟨some "x", 100⟩,
         TrackingEvent.Start ⟨none, 100⟩] =
      [TrackingEvent.Start ⟨none, 100⟩, TrackingEvent.Start ⟨some "x", 100⟩,
       TrackingEvent.Start ⟨none, 100⟩] ∧
    ¬ (persistTransform
        [TrackingEvent.Start ⟨none, 100⟩, TrackingEvent.Start ⟨some "x", 100⟩,
         TrackingEvent.Start ⟨none, 100⟩]).Nodup := by
  constructor
  · rfl
  · decide

/-- C6 (amended): after every mutating command the persisted log is
stably re-sorted by `time(true)` and consecutive exact duplicates are
removed: the result is sorted and no two adjacent events are equal; equal
events separated by a distinct same-time event can both survive. -/
theorem claim_C6 (l : List TrackingEvent) :
    List.Sorted eventLE (persistTransform l) ∧
    List.Chain' (fun a b => a ≠ b) (persistTransform l) :=
  ⟨(List.sorted_insertionSort eventLE l).sublist
      (dedupConsec_sublist (List.insertionSort eventLE l)),
   dedupConsec_chain' (List.insertionSort eventLE l)⟩

/-- Two-digit zero-padded rendering of an hour or minute value. -/
def pad2 (n : Nat) : String := ⟨[Nat.digitChar (n / 10), Nat.digitChar (n % 10)]⟩

theorem timeChain_pad2 :
    ∀ hh : Nat, hh < 24 → timeChain (pad2 hh) = some (hh * 3600) := by decide

theorem timeChain_pad2_hms :
    ∀ hh : Nat, hh < 24 →
      timeChain (pad2 hh ++ ":00:00") = some (hh * 3600) := by decide

set_option maxHeartbeats 2000000 in
theorem timeChain_pad2_hm :
    ∀ hh : Nat, hh < 24 → ∀ mm : Nat, mm < 60 →
      timeChain (pad2 hh ++ ":" ++ pad2 mm) = some (hh * 3600 + mm * 60) := by
  decide

set_option maxHeartbeats 2000000 in
theorem timeChain_pad2_hm00 :
    ∀ hh : Nat, hh < 24 → ∀ mm : Nat, mm < 60 →
      timeChain (pad2 hh ++ ":" ++ pad2 mm ++ ":00") =
        some (hh * 3600 + mm * 60) := by
  decide

theorem parse_date_time_of_timeChain (env : Env) (s : String) (t : Nat)
    (h : timeChain s = some t) :
    parse_date_time env s =
      .ok (env.localToday * 86400 + (t : Int) - env.tzOffset) := by
  rw [parse_date_time, h]

/-- C8: for every valid hour and minute, the shorthand `"HH"` and
`"HH:MM"` forms parse to the same instant as the fully zero-padded
`"HH:MM:SS"` form with the omitted fields zero, interpreted as today in
local time. -/
theorem claim_C8 (env : Env) (hh mm : Nat) (h1 : hh < 24) (h2 : mm < 60) :
    parse_date_time env (pad2 hh) =
      .ok (env.localToday * 86400 + ((hh * 3600 : Nat) : Int) - env.tzOffset) ∧
    parse_date_time env (pad2 hh ++ ":00:00") =
      .ok (env.localToday * 86400 + ((hh * 3600 : Nat) : Int) - env.tzOffset) ∧
    parse_date_time env (pad2 hh ++ ":" ++ pad2 mm) =
      .ok (env.localToday * 86400 +
           ((hh * 3600 + mm * 60 : Nat) : Int) - env.tzOffset) ∧
    parse_date_time env (pad2 hh ++ ":" ++ pad2 mm ++ ":00") =
      .ok (env.localToday * 86400 +
           ((hh * 3600 + mm * 60 : Nat) : Int) - env.tzOffset) :=
  ⟨parse_date_time_of_timeChain env _ _ (timeChain_pad2 hh h1),
   parse_date_time_of_timeChain env _ _ (timeChain_pad2_hms hh h1),
   parse_date_time_of_timeChain env _ _ (timeChain_pad2_hm hh h1 mm h2),
   parse_date_time_of_timeChain env _ _ (timeChain_pad2_hm00 hh h1 mm h2)⟩

theorem claim_C8_witness :
    parse_date_time ⟨0, 0⟩ "15" = .ok 54000 ∧
    parse_date_time ⟨0, 0⟩ "15:00:00" = .ok 54000 := by
  have hp : pad2 15 = "15" := by decide
  have hs : (pad2 15 ++ ":00:00" : String) = "15:00:00" := by decide
  have h := claim_C8 ⟨0, 0⟩ 15 0 (by decide) (by decide)
  have h1 := h.1
  have h2 := h.2.1
  rw [hp] at h1
  rw [hs] at h2
  rw [h1, h2]
  exact ⟨congrArg Except.ok (by decide), congrArg Except.ok (by decide)⟩

theorem dropLast_append_getLast {α : Type} :
    ∀ l : List α, l.dropLast ++ l.getLast?.toList = l := by
  intro l
  induction l with
  | nil => rfl
  | cons a rest ih =>
    cases rest with
    | nil => rfl
    | cons b rest2 =>
      have h2 : (a :: b :: rest2).dropLast = a :: (b :: rest2).dropLast := rfl
      have h3 : (a :: b :: rest2).getLast? = (b :: rest2).getLast? := by
        rw [List.getLast?_cons_cons]
      rw [h2, h3, List.cons_append, ih]

/-- The scan of `cleanup` preserves events: accepted + queued runs + the
still-open run is a permutation of the prior state plus the remaining
input. -/
theorem cleanupScan_multiset :
    ∀ (l : List TrackingEvent) (st : Option Bool)
      (cleaned conflicting : List TrackingEvent)
      (all : List (List TrackingEvent)),
      ((cleanupScan l st cleaned conflicting all).1 : Multiset TrackingEvent) +
        ↑(cleanupScan l st cleaned conflicting all).2.1.flatten +
        ↑(cleanupScan l st cleaned conflicting all).2.2 =
      ↑cleaned + ↑all.flatten + ↑conflicting + ↑l := by
  intro l
  induction l with
  | nil =>
    intro st cleaned conflicting all
    rw [cleanupScan]
    simp
  | cons e rest ih =>
    intro st cleaned conflicting all
    match st with
    | none =>
      rw [cleanupScan, ih]
      simp only [← Multiset.coe_add, ← Multiset.cons_coe, ← Multiset.singleton_add,
        Multiset.coe_singleton]
      abel
    | some true =>
      rw [cleanupScan]
      by_cases he : e.is_start
      · rw [if_pos he]
        cases conflicting with
        | nil =>
          rw [if_pos List.isEmpty_nil, ih]
          conv_rhs => rw [← dropLast_append_getLast cleaned]
          simp only [← Multiset.coe_add, ← Multiset.cons_coe, ← Multiset.singleton_add,
            Multiset.coe_singleton, Multiset.coe_nil]
          abel
        | cons c cs =>
          rw [if_neg (by simp), ih]
          simp only [← Multiset.coe_add, ← Multiset.cons_coe, ← Multiset.singleton_add,
            Multiset.coe_singleton]
          abel
      · rw [if_neg he]
        cases conflicting with
        | nil =>
          rw [if_pos List.isEmpty_nil, ih]
          simp only [← Multiset.coe_add, ← Multiset.cons_coe, ← Multiset.singleton_add,
            Multiset.coe_singleton, Multiset.coe_nil]
          abel
        | cons c cs =>
          rw [if_neg (by simp), ih]
          simp only [List.flatten_append, List.flatten_cons, List.flatten_nil, List.append_nil,
            ← Multiset.coe_add, ← Multiset.cons_coe, ← Multiset.singleton_add,
            Multiset.coe_singleton, Multiset.coe_nil]
          abel
    | some false =>
      rw [cleanupScan]
      by_cases he : e.is_stop
      · rw [if_pos he]
        cases conflicting with
        | nil =>
          rw [if_pos List.isEmpty_nil, ih]
          conv_rhs => rw [← dropLast_append_getLast cleaned]
          simp only [← Multiset.coe_add, ← Multiset.cons_coe, ← Multiset.singleton_add,
            Multiset.coe_singleton, Multiset.coe_nil]
          abel
        | cons c cs =>
          rw [if_neg (by simp), ih]
          simp only [← Multiset.coe_add, ← Multiset.cons_coe, ← Multiset.singleton_add,
            Multiset.coe_singleton]
          abel
      · rw [if_neg he]
        cases conflicting with
        | nil =>
          rw [if_pos List.isEmpty_nil, ih]
          simp only [← Multiset.coe_add, ← Multiset.cons_coe, ← Multiset.singleton_add,
            Multiset.coe_singleton, Multiset.coe_nil]
          abel
        | cons c cs =>
          rw [if_neg (by simp), ih]
          simp only [List.flatten_append, List.flatten_cons, List.flatten_nil, List.append_nil,
            ← Multiset.coe_add, ← Multiset.cons_coe, ← Multiset.singleton_add,
            Multiset.coe_singleton, Multiset.coe_nil]
          abel

/-- One run resolution appends either the whole run, one chosen entry of
it, or (after exhausting invalid answers) the whole run. -/
theorem resolveRun_shape (run : List TrackingEvent) :
    ∀ (answers : List String) (cleaned : List TrackingEvent),
      ∃ kept, (resolveRun run cleaned answers).1 = cleaned ++ kept ∧
        (↑kept : Multiset TrackingEvent) ≤ ↑run := by
  intro answers
  induction answers with
  | nil =>
    intro cleaned
    exact ⟨run, rfl, le_refl _⟩
  | cons a rest ih =>
    intro cleaned
    rw [resolveRun]
    by_cases hskip : trimStr a = "skip" || trimStr a = ""
    · rw [if_pos hskip]
      exact ⟨run, rfl, le_refl _⟩
    · rw [if_neg hskip]
      cases hn : parseNatAnswer (trimStr a).data with
      | none =>
        dsimp only
        exact ih cleaned
      | some n =>
        dsimp only
        cases hg : run.get? n with
        | none =>
          dsimp only
          exact ih cleaned
        | some v =>
          dsimp only
          refine ⟨[v], rfl, ?_⟩
          rw [Multiset.coe_singleton, Multiset.singleton_le]
          exact List.get?_mem hg

theorem resolveRun_skip (run : List TrackingEvent) (cleaned : List TrackingEvent)
    (answers : List String)
    (h : ∀ a ∈ answers, trimStr a = "skip" ∨ trimStr a = "") :
    (resolveRun run cleaned answers).1 = cleaned ++ run ∧
    (∀ a ∈ (resolveRun run cleaned answers).2,
      trimStr a = "skip" ∨ trimStr a = "") := by
  cases answers with
  | nil => exact ⟨rfl, by intro a ha; cases ha⟩
  | cons a rest =>
    have ha := h a (List.mem_cons_self a rest)
    have hcond : (trimStr a = "skip" || trimStr a = "") = true := by
      rcases ha with h1 | h1 <;> simp [h1]
    rw [resolveRun, if_pos hcond]
    exact ⟨rfl, fun b hb => h b (List.mem_cons_of_mem a hb)⟩

theorem resolveAll_le :
    ∀ (runs : List (List TrackingEvent)) (cleaned : List TrackingEvent)
      (answers : List String),
      (↑(resolveAll runs cleaned answers) : Multiset TrackingEvent) ≤
        ↑cleaned + ↑runs.flatten := by
  intro runs
  induction runs with
  | nil =>
    intro cleaned answers
    rw [resolveAll]
    simp [List.flatten_nil]
  | cons run runs ih =>
    intro cleaned answers
    rw [resolveAll]
    obtain ⟨kept, hk, hle⟩ := resolveRun_shape run answers cleaned
    calc (↑(resolveAll runs (resolveRun run cleaned answers).1
            (resolveRun run cleaned answers).2) : Multiset TrackingEvent) ≤
        ↑(resolveRun run cleaned answers).1 + ↑runs.flatten := ih _ _
      _ = ↑cleaned + ↑kept + ↑runs.flatten := by rw [hk, ← Multiset.coe_add]
      _ ≤ ↑cleaned + ↑run + ↑runs.flatten := by
          exact add_le_add_right (add_le_add_left hle _) _
      _ = ↑cleaned + ↑(run :: runs).flatten := by
          rw [List.flatten_cons]
          simp only [← Multiset.coe_add]
          rw [add_assoc]

theorem resolveAll_skip :
    ∀ (runs : List (List TrackingEvent)) (cleaned : List TrackingEvent)
      (answers : List String),
      (∀ a ∈ answers, trimStr a = "skip" ∨ trimStr a = "") →
      resolveAll runs cleaned answers = cleaned ++ runs.flatten := by
  intro runs
  induction runs with
  | nil =>
    intro cleaned answers _
    rw [resolveAll, List.flatten_nil, List.append_nil]
  | cons run runs ih =>
    intro cleaned answers h
    rw [resolveAll]
    obtain ⟨h1, h2⟩ := resolveRun_skip run cleaned answers h
    rw [ih _ _ h2, h1, List.flatten_cons, List.append_assoc]

/-- C2: the claim predicts cleanup keeps all events (in place) unless the
operator discards them by a numeric choice; but resolved runs are appended
at the end, and a conflict run still open at end of input is silently
dropped: here two trailing conflicting `Stop`s vanish although the
operator answered `skip`. -/
theorem claim_C2_counterexample :
    cleanup
        [TrackingEvent.Start ⟨none, 1⟩, TrackingEvent.Start ⟨none, 2⟩,
         TrackingEvent.Stop ⟨none, 3⟩, TrackingEvent.Stop ⟨none, 4⟩] ["skip"] =
      [TrackingEvent.Start ⟨none, 1⟩, TrackingEvent.Start ⟨none, 2⟩] ∧
    TrackingEvent.Stop ⟨none, 3⟩ ∈
      [TrackingEvent.Start ⟨none, 1⟩, TrackingEvent.Start ⟨none, 2⟩,
       TrackingEvent.Stop ⟨none, 3⟩, TrackingEvent.Stop ⟨none, 4⟩] ∧
    TrackingEvent.Stop ⟨none, 3⟩ ∉
      cleanup
        [TrackingEvent.Start ⟨none, 1⟩, TrackingEvent.Start ⟨none, 2⟩,
         TrackingEvent.Stop ⟨none, 3⟩, TrackingEvent.Stop ⟨none, 4⟩] ["skip"] := by
  refine ⟨by decide, by decide, by decide⟩

/-- C2 (amended): the output of `cleanup` is always a sub-multiset of the
input (each closed conflict run is replaced by the chosen entry, or kept
whole on `skip`, appended after the accepted events); when every answer is
`skip` and the scan ends with no open conflict run, the output is a
permutation of the input, so nothing is lost. A run still open at end of
input is dropped, and resolved runs are appended at the end rather than
in place. -/
theorem claim_C2 (data : List TrackingEvent) (answers : List String) :
    (↑(cleanup data answers) : Multiset TrackingEvent) ≤ ↑data ∧
    ((∀ a ∈ answers, trimStr a = "skip" ∨ trimStr a = "") →
      cleanupLeftover data = [] →
      (cleanup data answers).Perm data) := by
  have hscan := cleanupScan_multiset data none [] [] []
  simp only [Multiset.coe_nil, List.flatten_nil, zero_add] at hscan
  constructor
  · calc (↑(cleanup data answers) : Multiset TrackingEvent) ≤
        ↑(cleanupScan data none [] [] []).1 +
          ↑(cleanupScan data none [] [] []).2.1.flatten := by
          rw [cleanup]
          exact resolveAll_le _ _ _
      _ ≤ ↑(cleanupScan data none [] [] []).1 +
          ↑(cleanupScan data none [] [] []).2.1.flatten +
          ↑(cleanupScan data none [] [] []).2.2 := le_add_of_nonneg_right
            (Multiset.zero_le _)
      _ = ↑data := hscan
  · intro hski hleft
    rw [← Multiset.coe_eq_coe, cleanup, resolveAll_skip _ _ _ hski,
      ← Multiset.coe_add]
    have h2 : ((cleanupScan data none [] [] []).2.2 : Multiset TrackingEvent) = 0 := by
      rw [show (cleanupScan data none [] [] []).2.2 = cleanupLeftover data from rfl,
        hleft, Multiset.coe_nil]
    rw [← hscan, h2, add_zero]

theorem claim_C2_witness :
    (↑(cleanup [TrackingEvent.Start ⟨none, 1⟩, TrackingEvent.Start ⟨none, 2⟩,
        TrackingEvent.Stop ⟨none, 3⟩] ["skip"]) : Multiset TrackingEvent) ≤
      ↑[TrackingEvent.Start ⟨none, 1⟩, TrackingEvent.Start ⟨none, 2⟩,
        TrackingEvent.Stop ⟨none, 3⟩] ∧
    (cleanup [TrackingEvent.Start ⟨none, 1⟩, TrackingEvent.Start ⟨none, 2⟩,
        TrackingEvent.Stop ⟨none, 3⟩] ["skip"]).Perm
      [TrackingEvent.Start ⟨none, 1⟩, TrackingEvent.Start ⟨none, 2⟩,
       TrackingEvent.Stop ⟨none, 3⟩] := by
  have h := claim_C2
    [TrackingEvent.Start ⟨none, 1⟩, TrackingEvent.Start ⟨none, 2⟩,
     TrackingEvent.Stop ⟨none, 3⟩] ["skip"]
  exact ⟨h.1, h.2 (by decide) (by decide)⟩

/-!
## Claim C4: the remaining-time rule of `show`
-/

/-- The remaining-minutes value computed by the main `show` pipeline
(filter + aggregate + goal lookup) with no explicit bounds. -/
def dayRemainingValue (env : Env) (settings : Settings)
    (data : List TrackingEvent) (filterArg : Option String) (inc : Bool) : Int :=
  match filter_events env data none none filterArg with
  | .ok fd =>
    get_remaining_minutes settings (filterArg.getD "")
      (split_duration (get_time_from_events env settings fd inc)).1
      (split_duration (get_time_from_events env settings fd inc)).2.1
  | .error _ => 0

/-- The remaining-minutes value of the week pipeline (filter forced to
`"week"`). -/
def weekRemainingValue (env : Env) (settings : Settings)
    (data : List TrackingEvent) (inc : Bool) : Int :=
  match filter_events env data none none (some "week") with
  | .ok fw =>
    get_remaining_minutes settings "week"
      (split_duration (get_time_from_events env settings fw inc)).1
      (split_duration (get_time_from_events env settings fw inc)).2.1
  | .error _ => 0

/-- The line `show` prints for a remaining-minutes value `v`. -/
def remainingOutput (format : Option String) (inc plain : Bool) (v : Int) :
    ShowResult :=
  showRender format inc plain true (v.tdiv 60) (v - v.tdiv 60 * 60) 0

theorem filter_events_none_none_ok (env : Env) (data : List TrackingEvent)
    (filterArg : Option String) :
    ∃ res, filter_events env data none none filterArg = .ok res := by
  rw [filter_events]
  cases filterArg with
  | none =>
    rw [resolveBounds]
    exact ⟨_, rfl⟩
  | some f =>
    rw [resolveBounds]
    dsimp only
    by_cases hf : f = "week"
    · rw [if_pos hf]
      exact ⟨_, rfl⟩
    · rw [if_neg hf]
      exact ⟨_, rfl⟩

theorem filter_events_args_ok (env : Env) (data : List TrackingEvent)
    (fromArg toArg filterArg : Option String)
    (hf : ∀ s, fromArg = some s → ∃ b, parse_date_or_date_time env s = Except.ok b)
    (ht : ∀ s, toArg = some s → ∃ b, parse_date_or_date_time env s = Except.ok b) :
    ∃ res, filter_events env data fromArg toArg filterArg = .ok res := by
  have hdef : ∃ t, resolveBoundsDefault env fromArg toArg filterArg = .ok t := by
    unfold resolveBoundsDefault
    cases fromArg with
    | none =>
      cases toArg with
      | none => exact ⟨_, rfl⟩
      | some s =>
        obtain ⟨b, hb⟩ := ht s rfl
        dsimp only
        rw [hb]
        exact ⟨_, rfl⟩
    | some s =>
      obtain ⟨b, hb⟩ := hf s rfl
      dsimp only
      rw [hb]
      cases toArg with
      | none => exact ⟨_, rfl⟩
      | some s2 =>
        obtain ⟨b2, hb2⟩ := ht s2 rfl
        dsimp only
        rw [hb2]
        exact ⟨_, rfl⟩
  obtain ⟨t, htr⟩ := hdef
  rw [filter_events]
  cases filterArg with
  | none =>
    rw [resolveBounds, htr]
    exact ⟨_, rfl⟩
  | some f =>
    rw [resolveBounds]
    dsimp only
    by_cases hfw : f = "week"
    · rw [if_pos hfw]
      exact ⟨_, rfl⟩
    · rw [if_neg hfw, htr]
      exact ⟨_, rfl⟩

/-- C4: the claim predicts the min(daily, weekly) rule also when the
filter is `"week"`; the code applies it only for the empty filter. With
daily goal 1h, weekly goal 100h, empty log, filter `"week"` and today not
the last work day, the code reports the weekly remaining 100:00, while
the claim predicts min(60, 6000) = 60 minutes, rendered 01:00. -/
theorem claim_C4_counterexample :
    showCommand ⟨200000, 0⟩ ⟨false, 0, ⟨⟨1, 0⟩, ⟨100, 0⟩⟩, 4⟩ [] none none
        (some "week") none false true true =
      .ok ⟨some "100:00:00", false⟩ ∧
    weekdayFromMonday (Env.localToday ⟨200000, 0⟩) ≠
      (⟨false, 0, ⟨⟨1, 0⟩, ⟨100, 0⟩⟩, 4⟩ : Settings).last_day_of_work_week ∧
    min (get_remaining_minutes ⟨false, 0, ⟨⟨1, 0⟩, ⟨100, 0⟩⟩, 4⟩ "" 0 0)
        (get_remaining_minutes ⟨false, 0, ⟨⟨1, 0⟩, ⟨100, 0⟩⟩, 4⟩ "week" 0 0) = 60 ∧
    formatTime "{hh}:{mm}:{ss}" 1 0 0 = "01:00:00" ∧
    "100:00:00" ≠ "01:00:00" :=
  ⟨rfl, by decide, by decide, rfl, by decide⟩

/-- C4 (amended): with `remaining` requested and no explicit bounds, the
empty filter reports `max 0` of (weekly remaining on the configured last
work day, otherwise `min(daily remaining, weekly remaining)`), the weekly
value obtained by re-running the pipeline with filter forced to `"week"`;
with filter `"week"` the min rule is skipped and `max 0 (weekly
remaining)` is reported; with explicit (parseable) bounds or any other
filter, the usage warning is printed and the command returns success
without output. -/
theorem claim_C4 (env : Env) (settings : Settings) (data : List TrackingEvent)
    (fromArg toArg filterArg : Option String) (format : Option String)
    (inc plain : Bool) :
    (filterArg.getD "" = "" → fromArg = none → toArg = none →
      showCommand env settings data fromArg toArg filterArg format inc plain true =
        .ok (remainingOutput format inc plain
          (max (if weekdayFromMonday env.localToday = settings.last_day_of_work_week
                then weekRemainingValue env settings data inc
                else min (dayRemainingValue env settings data filterArg inc)
                    (weekRemainingValue env settings data inc)) 0))) ∧
    (filterArg = some "week" → fromArg = none → toArg = none →
      showCommand env settings data fromArg toArg filterArg format inc plain true =
        .ok (remainingOutput format inc plain
          (max (weekRemainingValue env settings data inc) 0))) ∧
    ((fromArg ≠ none ∨ toArg ≠ none ∨
        (filterArg.getD "" ≠ "" ∧ filterArg.getD "" ≠ "week")) →
      (∀ s, fromArg = some s → ∃ b, parse_date_or_date_time env s = Except.ok b) →
      (∀ s, toArg = some s → ∃ b, parse_date_or_date_time env s = Except.ok b) →
      showCommand env settings data fromArg toArg filterArg format inc plain true =
        .ok ⟨none, true⟩) := by
  refine ⟨?_, ?_, ?_⟩
  · intro hfe hfrom hto
    subst hfrom
    subst hto
    obtain ⟨fd, hfd⟩ := filter_events_none_none_ok env data filterArg
    obtain ⟨fw, hfw⟩ := filter_events_none_none_ok env data (some "week")
    rw [showCommand, hfd]
    dsimp only
    rw [if_pos rfl, hfe]
    rw [if_pos (by simp)]
    rw [if_pos (by simp), hfw]
    dsimp only
    rw [remainingOutput, dayRemainingValue, hfd, weekRemainingValue, hfw, hfe]
  · intro hfweek hfrom hto
    subst hfrom
    subst hto
    subst hfweek
    obtain ⟨fw, hfw⟩ := filter_events_none_none_ok env data (some "week")
    rw [showCommand, hfw]
    dsimp only
    rw [if_pos rfl]
    rw [if_pos (by simp)]
    rw [if_neg (by simp)]
    dsimp only
    rw [remainingOutput, weekRemainingValue, hfw]
    dsimp only [Option.getD]
  · intro hcase hf ht
    obtain ⟨res, hres⟩ := filter_events_args_ok env data fromArg toArg filterArg hf ht
    rw [showCommand, hres]
    dsimp only
    rw [if_pos rfl]
    rw [if_neg ?_]
    intro hcontra
    obtain ⟨hfil, hfr, hto⟩ := hcontra
    rcases hcase with h | h | h
    · exact h hfr
    · exact h hto
    · rcases hfil with hw | he
      · exact h.2 hw
      · exact h.1 he

theorem claim_C4_witness :
    showCommand ⟨200000, 0⟩ ⟨false, 0, ⟨⟨1, 0⟩, ⟨100, 0⟩⟩, 4⟩ [] (some "10:00:00")
        none none none false true true = .ok ⟨none, true⟩ :=
  (claim_C4 ⟨200000, 0⟩ ⟨false, 0, ⟨⟨1, 0⟩, ⟨100, 0⟩⟩, 4⟩ [] (some "10:00:00")
      none none none false true).2.2
    (Or.inl (by simp))
    (fun s hs => by
      cases hs
      exact ⟨_, rfl⟩)
    (fun s hs => by cases hs)

end Timetracking
